import Mathlib

/-!
Verification development for the tabbed-notes note manager
(`src/components/Notepad.tsx`).

The component state is embedded shallowly: the React state hooks become the
fields of `NotepadState`, the two `localStorage` slots become `storedNotes`
and `storedLastActive`, the toast side channel becomes an appended list of
messages, and every call to `saveNotes` bumps a write counter so that the
number of persistence writes is observable.  Every event handler of the
component becomes a pure function on `NotepadState`.  The debounce timer is
modelled by a `pending` field holding the scheduled content together with
the active-note id captured by the closure at scheduling time; firing the
timer is the separate transition `fireDebounce`.
-/

/-- A note record, mirroring the `Note` interface of the source. -/
structure Note where
  id : String
  title : String
  content : String
  lastModified : Nat
deriving DecidableEq

/-- The component state.  `notes`, `activeNoteId`, `isRenamingTab` and
`tempTitle` mirror the React state hooks; `pending` models the debounce
timeout (scheduled content together with the `activeNoteId` captured by the
closure); `storedNotes` and `storedLastActive` are the two storage slots
(held at the parsed level, the byte-level serialization is modelled
separately by `encodeNotes` and `decodeNotes`); `toasts` collects the
user-visible notices; `writeCount` counts calls to `saveNotes`. -/
structure NotepadState where
  notes : List Note
  activeNoteId : Option String
  isRenamingTab : Option String
  tempTitle : String
  pending : Option (String × Option String)
  storedNotes : Option (List Note)
  storedLastActive : Option String
  toasts : List String
  writeCount : Nat
deriving DecidableEq

/-- JS `x || null` applied to a nullable string: the empty string is falsy. -/
def orNull : Option String → Option String
  | some str => if str = "" then none else some str
  | none => none

/-- `saveNotes`: `localStorage.setItem(STORAGE_KEY, JSON.stringify(notesToSave))`. -/
def saveNotes (s : NotepadState) (notesToSave : List Note) : NotepadState :=
  { s with storedNotes := some notesToSave, writeCount := s.writeCount + 1 }

/-- The seed note created on first load (`firstNote` in the source). -/
def firstNote (now : Nat) : Note :=
  { id := "1", title := "Welcome",
    content := "# Welcome to Smart Notepad\n\nThis is your first note. You can:\n\n- **Add new tabs** with Ctrl+T\n- **Close tabs** with Ctrl+W  \n- **Save** with Ctrl+S\n- **Rename tabs** by double-clicking\n- **Toggle theme** with the button\n- **Preview Markdown** with the eye icon\n\nYour notes are automatically saved!",
    lastModified := now }

/-- The load effect (`useEffect` reading `STORAGE_KEY` and `LAST_ACTIVE_KEY`):
`savedNotes` is the parsed stored note array (or `none` when the slot is
absent), `lastActive` the stored last-active id.  JS truthiness of
`lastActive` makes the empty string count as absent. -/
def loadNotes (savedNotes : Option (List Note)) (lastActive : Option String)
    (now : Nat) : NotepadState :=
  match savedNotes with
  | some parsedNotes =>
    let active : Option String :=
      match lastActive with
      | some la =>
        if la ≠ "" ∧ parsedNotes.any (fun n => n.id == la) then some la
        else
          match parsedNotes with
          | [] => none
          | n :: _ => some n.id
      | none =>
        match parsedNotes with
        | [] => none
        | n :: _ => some n.id
    { notes := parsedNotes, activeNoteId := active, isRenamingTab := none,
      tempTitle := "", pending := none, storedNotes := savedNotes,
      storedLastActive := lastActive, toasts := [], writeCount := 0 }
  | none =>
    { notes := [firstNote now], activeNoteId := some "1", isRenamingTab := none,
      tempTitle := "", pending := none, storedNotes := none,
      storedLastActive := lastActive, toasts := [], writeCount := 0 }

/-- `createNewNote`: appends a fresh note (id `Date.now().toString()`),
makes it active, persists the list and the new selection. -/
def createNewNote (s : NotepadState) (now : Nat) : NotepadState :=
  let newNote : Note :=
    { id := Nat.repr now, title := "Untitled", content := "", lastModified := now }
  let updatedNotes := s.notes ++ [newNote]
  let s1 := saveNotes { s with notes := updatedNotes, activeNoteId := some newNote.id } updatedNotes
  { s1 with storedLastActive := some newNote.id }

/-- `closeNote`: refuses (with a toast) when only one note exists; otherwise
filters the id out, persists, and when the closed note was active re-selects
`updatedNotes[0]?.id || null`, persisting the new selection when non-null. -/
def closeNote (s : NotepadState) (noteId : String) : NotepadState :=
  if s.notes.length = 1 then
    { s with toasts := s.toasts ++ ["Cannot close last note"] }
  else
    let updatedNotes := s.notes.filter (fun note => note.id != noteId)
    let s1 := saveNotes { s with notes := updatedNotes } updatedNotes
    if s.activeNoteId = some noteId then
      match orNull ((updatedNotes.head?).map Note.id) with
      | some a => { s1 with activeNoteId := some a, storedLastActive := some a }
      | none => { s1 with activeNoteId := none }
    else s1

/-- `switchToNote`: sets the active id and persists the selection. -/
def switchToNote (s : NotepadState) (noteId : String) : NotepadState :=
  { s with activeNoteId := some noteId, storedLastActive := some noteId }

/-- `startRename`: records the tab being renamed and seeds the temp title. -/
def startRename (s : NotepadState) (noteId : String) (currentTitle : String) :
    NotepadState :=
  { s with isRenamingTab := some noteId, tempTitle := currentTitle }

/-- `saveRename`: when a rename is in progress (JS truthiness: the id must be
a non-empty string) and the trimmed temp title is non-empty, rewrites that
note's title and `lastModified` and persists; always clears the rename
fields. -/
def saveRename (s : NotepadState) (now : Nat) : NotepadState :=
  match s.isRenamingTab with
  | some rid =>
    if rid ≠ "" ∧ s.tempTitle.trim ≠ "" then
      let updated := s.notes.map (fun note =>
        if note.id = rid then
          { note with title := s.tempTitle.trim, lastModified := now }
        else note)
      let s1 := saveNotes { s with notes := updated } updated
      { s1 with isRenamingTab := none, tempTitle := "" }
    else { s with isRenamingTab := none, tempTitle := "" }
  | none => { s with isRenamingTab := none, tempTitle := "" }

/-- `debouncedSave`: cancels any pending timeout and schedules a new one
holding `content` and the `activeNoteId` captured by the closure. -/
def debouncedSave (s : NotepadState) (content : String) : NotepadState :=
  { s with pending := some (content, s.activeNoteId) }

/-- `handleContentChange`: updates the active note's content in memory
immediately (no `lastModified` change) and schedules the debounced save. -/
def handleContentChange (s : NotepadState) (content : String) : NotepadState :=
  let s1 := { s with notes := s.notes.map (fun note =>
    if some note.id = s.activeNoteId then { note with content := content } else note) }
  debouncedSave s1 content

/-- Firing the debounce timeout: with a captured active id, rewrites that
note's content and `lastModified` in the current list and persists. -/
def fireDebounce (s : NotepadState) (now : Nat) : NotepadState :=
  match s.pending with
  | none => s
  | some (content, captured) =>
    match captured with
    | none => { s with pending := none }
    | some aid =>
      let updated := s.notes.map (fun note =>
        if note.id = aid then { note with content := content, lastModified := now }
        else note)
      saveNotes { s with notes := updated, pending := none } updated

/-- `items.splice(i, 1)` on a list: drop the element at index `i`. -/
def removeAt (l : List Note) (i : Nat) : List Note := l.take i ++ l.drop (i + 1)

/-- `items.splice(i, 0, a)` on a list: insert `a` at index `i`
(clamped to the end, as `splice` does). -/
def insertAt (l : List Note) (i : Nat) (a : Note) : List Note :=
  l.take i ++ a :: l.drop i

/-- `handleDragEnd` with a destination: splice the note out of the source
index, splice it back in at the destination index, persist.  (An
out-of-range source index, impossible for indices produced by the
drag-and-drop library, is modelled as a no-op.) -/
def handleDragEnd (s : NotepadState) (srcIdx dstIdx : Nat) : NotepadState :=
  match s.notes[srcIdx]? with
  | none => s
  | some reorderedItem =>
    let items := insertAt (removeAt s.notes srcIdx) dstIdx reorderedItem
    saveNotes { s with notes := items } items

/-- `manualSave`: clears any pending debounce timeout; when an active note
exists, persists the current list as-is and emits a confirmation toast. -/
def manualSave (s : NotepadState) : NotepadState :=
  let s0 : NotepadState := { s with pending := none }
  match s.notes.find? (fun note => some note.id == s.activeNoteId) with
  | some activeNote =>
    let s1 := saveNotes s0 s.notes
    { s1 with toasts := s1.toasts ++ [activeNote.title ++ " has been saved."] }
  | none => s0

/-- The active-selection invariant: whenever `activeNoteId` is non-null it is
the id of a note present in the store. -/
def activeValid (s : NotepadState) : Prop :=
  match s.activeNoteId with
  | none => True
  | some aid => ∃ n ∈ s.notes, n.id = aid

/-- States reachable from either load path by the component's event handlers.
`switchToNote` is only ever invoked by the tab bar with the id of a rendered
note, so that step carries the corresponding membership guard. -/
inductive Reachable : NotepadState → Prop
  | load (savedNotes : Option (List Note)) (lastActive : Option String) (now : Nat) :
      Reachable (loadNotes savedNotes lastActive now)
  | create (s : NotepadState) (now : Nat) :
      Reachable s → Reachable (createNewNote s now)
  | close (s : NotepadState) (noteId : String) :
      Reachable s → Reachable (closeNote s noteId)
  | switch (s : NotepadState) (noteId : String)
      (h : ∃ n ∈ s.notes, n.id = noteId) :
      Reachable s → Reachable (switchToNote s noteId)
  | startRen (s : NotepadState) (noteId currentTitle : String) :
      Reachable s → Reachable (startRename s noteId currentTitle)
  | saveRen (s : NotepadState) (now : Nat) :
      Reachable s → Reachable (saveRename s now)
  | edit (s : NotepadState) (content : String) :
      Reachable s → Reachable (handleContentChange s content)
  | fire (s : NotepadState) (now : Nat) :
      Reachable s → Reachable (fireDebounce s now)
  | drag (s : NotepadState) (srcIdx dstIdx : Nat) :
      Reachable s → Reachable (handleDragEnd s srcIdx dstIdx)
  | save (s : NotepadState) :
      Reachable s → Reachable (manualSave s)

/-! ## Markdown renderer

`renderMarkdown` chains six global regex substitutions.  The three header
patterns are anchored (`^`, `m` flag) with `.` not crossing newlines, so they
act line by line; the two emphasis patterns use non-greedy `.*?` (again not
crossing newlines) and global scanning; the last substitution replaces every
newline with `<br>`.  The embedding works on `List Char` and applies the six
passes in the source order. -/

/-- Split a character list at newlines (`"a\nb"` gives `["a", "b"]`,
with a trailing newline producing a final empty line). -/
def splitOnNl : List Char → List (List Char)
  | [] => [[]]
  | c :: rest =>
    let r := splitOnNl rest
    if c = '\n' then [] :: r
    else
      match r with
      | [] => [[c]]
      | l :: ls => (c :: l) :: ls

/-- Rejoin lines with newlines (inverse of `splitOnNl`). -/
def joinNl : List (List Char) → List Char
  | [] => []
  | [l] => l
  | l :: ls => l ++ '\n' :: joinNl ls

/-- One header substitution on one line: when the line starts with the given
marker (`"# "`, `"## "` or `"### "`), wrap the rest of the line in the given
open and close tags. -/
def headerLine (marker openTag closeTag : List Char) (line : List Char) :
    List Char :=
  if line.take marker.length = marker then
    openTag ++ line.drop marker.length ++ closeTag
  else line

/-- One anchored-multiline header substitution over the whole string. -/
def headerPass (marker openTag closeTag : List Char) (s : List Char) :
    List Char :=
  joinNl ((splitOnNl s).map (headerLine marker openTag closeTag))

/-- Prepend a character to the first component of a parser result. -/
def consFst (c : Char) :
    Option (List Char × List Char) → Option (List Char × List Char)
  | some (l, r) => some (c :: l, r)
  | none => none

/-- Scan for the next `**` on the current line (`.` in `\*\*(.*?)\*\*` does
not cross newlines): returns the characters before it and the remainder
after it. -/
def splitAtStars2 : List Char → Option (List Char × List Char)
  | [] => none
  | c :: rest =>
    if c = '\n' then none
    else if c = '*' then
      match rest with
      | [] => none
      | d :: rest2 =>
        if d = '*' then some ([], rest2)
        else consFst c (splitAtStars2 rest)
    else consFst c (splitAtStars2 rest)

/-- Scan for the next `*` on the current line. -/
def splitAtStar1 : List Char → Option (List Char × List Char)
  | [] => none
  | c :: rest =>
    if c = '\n' then none
    else if c = '*' then some ([], rest)
    else consFst c (splitAtStar1 rest)

/-- Global `\*\*(.*?)\*\*` substitution (fuel = input length, consumed one
character at a time, so it never runs out). -/
def boldAux : Nat → List Char → List Char
  | 0, s => s
  | fuel + 1, s =>
    match s with
    | [] => []
    | c :: rest =>
      if c = '*' then
        match rest with
        | [] => [c]
        | d :: rest2 =>
          if d = '*' then
            match splitAtStars2 rest2 with
            | some (inner, rest3) =>
              ("<strong>".data ++ inner ++ "</strong>".data) ++ boldAux fuel rest3
            | none => c :: boldAux fuel rest
          else c :: boldAux fuel rest
      else c :: boldAux fuel rest

/-- Global `\*(.*?)\*` substitution. -/
def emAux : Nat → List Char → List Char
  | 0, s => s
  | fuel + 1, s =>
    match s with
    | [] => []
    | c :: rest =>
      if c = '*' then
        match splitAtStar1 rest with
        | some (inner, rest2) =>
          ("<em>".data ++ inner ++ "</em>".data) ++ emAux fuel rest2
        | none => c :: emAux fuel rest
      else c :: emAux fuel rest

/-- The final `\n` to `<br>` substitution. -/
def breakPass (s : List Char) : List Char :=
  s.flatMap (fun c => if c = '\n' then "<br>".data else [c])

/-- `renderMarkdown`: the six substitutions in source order. -/
def renderMarkdown (content : String) : String :=
  let s1 := headerPass "# ".data "<h1 class=\"text-2xl font-bold mb-4\">".data "</h1>".data content.data
  let s2 := headerPass "## ".data "<h2 class=\"text-xl font-semibold mb-3\">".data "</h2>".data s1
  let s3 := headerPass "### ".data "<h3 class=\"text-lg font-medium mb-2\">".data "</h3>".data s2
  let s4 := boldAux s3.length s3
  let s5 := emAux s4.length s4
  String.mk (breakPass s5)

/-! ## Serialization

`saveNotes` stores `JSON.stringify(notesToSave)` and the load path parses it
back with `JSON.parse`.  `encodeNotes` models `JSON.stringify` on an array of
`Note` records (field order is the insertion order `id`, `title`, `content`,
`lastModified`; strings are escaped exactly as `JSON.stringify` escapes them:
`\"`, `\\`, `\n`, `\r`, `\t`, `\b`, `\f`, and `\u00XX` for the remaining
control characters).  `decodeNotes` models `JSON.parse` restricted to that
shape, returning `none` where `JSON.parse` would throw or produce a value of
a different shape. -/

/-- Lower-case hexadecimal digit. -/
def hexDigitChar (n : Nat) : Char :=
  if n < 10 then Char.ofNat (48 + n) else Char.ofNat (87 + n)

/-- JSON escaping of one character, as `JSON.stringify` performs it. -/
def escChar (c : Char) : List Char :=
  if c = '"' then ['\\', '"']
  else if c = '\\' then ['\\', '\\']
  else if c = '\n' then ['\\', 'n']
  else if c = '\r' then ['\\', 'r']
  else if c = '\t' then ['\\', 't']
  else if c.toNat = 8 then ['\\', 'b']
  else if c.toNat = 12 then ['\\', 'f']
  else if c.toNat < 32 then
    ['\\', 'u', '0', '0', hexDigitChar (c.toNat / 16), hexDigitChar (c.toNat % 16)]
  else [c]

/-- JSON escaping of a character list. -/
def escStr : List Char → List Char
  | [] => []
  | c :: rest => escChar c ++ escStr rest

/-- A JSON string literal: quote, escaped content, quote. -/
def encString (s : String) : List Char := '"' :: (escStr s.data ++ ['"'])

/-- Decimal digits of a natural number (accumulator form, fuel-bounded; with
fuel at least the value the fuel never runs out, and the fuel-exhausted base
case agrees with the one-digit case). -/
def encNatAux : Nat → Nat → List Char → List Char
  | 0, n, acc => Char.ofNat (48 + n % 10) :: acc
  | fuel + 1, n, acc =>
    let d := Char.ofNat (48 + n % 10)
    if n < 10 then d :: acc else encNatAux fuel (n / 10) (d :: acc)

/-- Decimal representation of a natural number, as `JSON.stringify` prints an
integral number. -/
def encNat (n : Nat) : List Char := encNatAux n n []

/-- One serialized note object:
`\x7b"id":…,"title":…,"content":…,"lastModified":…\x7d`. -/
def encNote (n : Note) : List Char :=
  ("\x7b\"id\":").data ++ encString n.id ++
  (",\"title\":").data ++ encString n.title ++
  (",\"content\":").data ++ encString n.content ++
  (",\"lastModified\":").data ++ encNat n.lastModified ++ ("\x7d").data

/-- The comma-separated note objects of a non-empty array body. -/
def encNoteSeq : List Note → List Char
  | [] => []
  | [n] => encNote n
  | n :: rest => encNote n ++ ',' :: encNoteSeq rest

/-- `JSON.stringify` on the whole note array. -/
def encodeNotes (l : List Note) : String :=
  String.mk ('[' :: (encNoteSeq l ++ [']']))

/-- Value of a hexadecimal digit character. -/
def hexVal (c : Char) : Option Nat :=
  if 48 ≤ c.toNat ∧ c.toNat ≤ 57 then some (c.toNat - 48)
  else if 97 ≤ c.toNat ∧ c.toNat ≤ 102 then some (c.toNat - 87)
  else if 65 ≤ c.toNat ∧ c.toNat ≤ 70 then some (c.toNat - 55)
  else none

/-- Parse the body of a JSON string literal up to its closing quote,
undoing the escapes of `escChar`; returns the decoded characters and the
remainder after the closing quote.  Fuel-bounded: one unit of fuel per
decoded character, so fuel exceeding the input length never runs out. -/
def decStrAux : Nat → List Char → Option (List Char × List Char)
  | 0, _ => none
  | fuel + 1, s =>
    match s with
    | [] => none
    | c :: rest =>
      if c = '"' then some ([], rest)
      else if c = '\\' then
        match rest with
        | [] => none
        | e :: rest2 =>
          if e = '"' then consFst '"' (decStrAux fuel rest2)
          else if e = '\\' then consFst '\\' (decStrAux fuel rest2)
          else if e = 'n' then consFst '\n' (decStrAux fuel rest2)
          else if e = 'r' then consFst '\r' (decStrAux fuel rest2)
          else if e = 't' then consFst '\t' (decStrAux fuel rest2)
          else if e = 'b' then consFst (Char.ofNat 8) (decStrAux fuel rest2)
          else if e = 'f' then consFst (Char.ofNat 12) (decStrAux fuel rest2)
          else if e = 'u' then
            match rest2 with
            | h1 :: h2 :: h3 :: h4 :: rest3 =>
              match hexVal h1, hexVal h2, hexVal h3, hexVal h4 with
              | some v1, some v2, some v3, some v4 =>
                consFst (Char.ofNat (4096 * v1 + 256 * v2 + 16 * v3 + v4))
                  (decStrAux fuel rest3)
              | _, _, _, _ => none
            | _ => none
          else none
      else consFst c (decStrAux fuel rest)

/-- Parse a run of decimal digits (accumulator form), returning the value
and the remainder. -/
def decNatAux : List Char → Nat → Nat × List Char
  | [], acc => (acc, [])
  | c :: rest, acc =>
    if c.isDigit then decNatAux rest (acc * 10 + (c.toNat - 48))
    else (acc, c :: rest)

/-- Strip an expected literal from the front of the input. -/
def stripLit : List Char → List Char → Option (List Char)
  | [], s => some s
  | _ :: _, [] => none
  | c :: cs, d :: ds => if c = d then stripLit cs ds else none

/-- Parse one serialized note object. -/
def decNote (s0 : List Char) : Option (Note × List Char) :=
  match stripLit ("\x7b\"id\":\"").data s0 with
  | none => none
  | some s1 =>
    match decStrAux (s1.length + 1) s1 with
    | none => none
    | some (idChars, s2) =>
      match stripLit (",\"title\":\"").data s2 with
      | none => none
      | some s3 =>
        match decStrAux (s3.length + 1) s3 with
        | none => none
        | some (titleChars, s4) =>
          match stripLit (",\"content\":\"").data s4 with
          | none => none
          | some s5 =>
            match decStrAux (s5.length + 1) s5 with
            | none => none
            | some (contentChars, s6) =>
              match stripLit (",\"lastModified\":").data s6 with
              | none => none
              | some s7 =>
                match s7 with
                | [] => none
                | c :: _ =>
                  if c.isDigit then
                    match decNatAux s7 0 with
                    | (v, s8) =>
                      match stripLit ("\x7d").data s8 with
                      | none => none
                      | some s9 =>
                        some ({ id := String.mk idChars, title := String.mk titleChars,
                                content := String.mk contentChars, lastModified := v }, s9)
                  else none

/-- Parse a comma-separated sequence of note objects (fuel-bounded; the fuel
is at least the input length plus one, and each iteration consumes input). -/
def decNotesAux : List Char → Nat → Option (List Note × List Char)
  | _, 0 => none
  | s, fuel + 1 =>
    match decNote s with
    | none => none
    | some (n, s1) =>
      match s1 with
      | ',' :: s2 =>
        match decNotesAux s2 fuel with
        | some (ns, s3) => some (n :: ns, s3)
        | none => none
      | _ => some ([n], s1)

/-- `JSON.parse` restricted to the serialized note-array shape. -/
def decodeNotes (str : String) : Option (List Note) :=
  match str.data with
  | [] => none
  | c :: s =>
    if c = '[' then
      if s = [']'] then some []
      else
        match decNotesAux s (s.length + 1) with
        | some (ns, rest) => if rest = [']'] then some ns else none
        | none => none
    else none

/-! ## Concrete states used by the witnesses -/

/-- A sample note. -/
def noteA : Note := { id := "a", title := "Alpha", content := "one", lastModified := 1 }

/-- A second sample note. -/
def noteB : Note := { id := "b", title := "Beta", content := "two", lastModified := 2 }

/-- A two-note state with the first note active. -/
def sampleState : NotepadState :=
  { notes := [noteA, noteB], activeNoteId := some "a", isRenamingTab := none,
    tempTitle := "", pending := none, storedNotes := none, storedLastActive := none,
    toasts := [], writeCount := 0 }

/-- A one-note state. -/
def oneNoteState : NotepadState :=
  { notes := [noteA], activeNoteId := some "a", isRenamingTab := none,
    tempTitle := "", pending := none, storedNotes := none, storedLastActive := none,
    toasts := [], writeCount := 0 }

/-- Decidability of the invariant, so that witnesses can check it on
concrete states. -/
instance (s : NotepadState) : Decidable (activeValid s) :=
  match hA : s.activeNoteId with
  | none => isTrue (by simp [activeValid, hA])
  | some aid =>
    match List.decidableBEx (fun n => n.id = aid) s.notes with
    | isTrue p => isTrue (by simp only [activeValid, hA]; exact p)
    | isFalse p => isFalse (by simp only [activeValid, hA]; exact p)

/-! ## Helper lemmas -/

lemma activeValid_def (s : NotepadState) :
    activeValid s ↔ ∀ aid, s.activeNoteId = some aid → ∃ n ∈ s.notes, n.id = aid := by
  cases hA : s.activeNoteId <;> simp [activeValid, hA]

lemma closeNote_len1 (s : NotepadState) (nid : String) (h : s.notes.length = 1) :
    closeNote s nid = { s with toasts := s.toasts ++ ["Cannot close last note"] } := by
  unfold closeNote; rw [if_pos h]

lemma closeNote_eq (s : NotepadState) (nid : String) (h : ¬s.notes.length = 1) :
    closeNote s nid =
      (if s.activeNoteId = some nid then
        match orNull (((s.notes.filter (fun note => note.id != nid)).head?).map Note.id) with
        | some a =>
          { saveNotes { s with notes := s.notes.filter (fun note => note.id != nid) }
              (s.notes.filter (fun note => note.id != nid)) with
            activeNoteId := some a, storedLastActive := some a }
        | none =>
          { saveNotes { s with notes := s.notes.filter (fun note => note.id != nid) }
              (s.notes.filter (fun note => note.id != nid)) with
            activeNoteId := none }
      else
        saveNotes { s with notes := s.notes.filter (fun note => note.id != nid) }
          (s.notes.filter (fun note => note.id != nid))) := by
  unfold closeNote
  rw [if_neg h]

lemma closeNote_notes (s : NotepadState) (nid : String) (h : ¬s.notes.length = 1) :
    (closeNote s nid).notes = s.notes.filter (fun note => note.id != nid) := by
  rw [closeNote_eq s nid h]
  split
  · split <;> rfl
  · rfl

lemma closeNote_stored (s : NotepadState) (nid : String) (h : ¬s.notes.length = 1) :
    (closeNote s nid).storedNotes = some (s.notes.filter (fun note => note.id != nid)) := by
  rw [closeNote_eq s nid h]
  split
  · split <;> rfl
  · rfl

lemma closeNote_writeCount (s : NotepadState) (nid : String) (h : ¬s.notes.length = 1) :
    (closeNote s nid).writeCount = s.writeCount + 1 := by
  rw [closeNote_eq s nid h]
  split
  · split <;> rfl
  · rfl

lemma closeNote_toasts (s : NotepadState) (nid : String) (h : ¬s.notes.length = 1) :
    (closeNote s nid).toasts = s.toasts := by
  rw [closeNote_eq s nid h]
  split
  · split <;> rfl
  · rfl

lemma filter_ne_all (l : List Note) (nid : String) (h : ∀ n ∈ l, n.id ≠ nid) :
    l.filter (fun note => note.id != nid) = l := by
  induction l with
  | nil => rfl
  | cons a t ih =>
    have ha : (a.id != nid) = true := by
      simpa [bne_iff_ne] using h a (List.mem_cons_self a t)
    simp only [List.filter_cons, ha, if_pos]
    rw [ih (fun n hn => h n (List.mem_cons_of_mem _ hn))]

lemma length_filter_ne (l : List Note) (nid : String)
    (hnd : (l.map Note.id).Nodup) (hmem : ∃ n ∈ l, n.id = nid) :
    (l.filter (fun note => note.id != nid)).length + 1 = l.length := by
  induction l with
  | nil => simp at hmem
  | cons a t ih =>
    rw [List.map_cons, List.nodup_cons] at hnd
    obtain ⟨hna, hnt⟩ := hnd
    by_cases hid : a.id = nid
    · have hall : ∀ n ∈ t, n.id ≠ nid := by
        intro n hn heq
        apply hna
        rw [hid, ← heq]
        exact List.mem_map_of_mem Note.id hn
      have hfa : (a.id != nid) = false := by simp [hid]
      simp only [List.filter_cons, hfa, if_neg, Bool.false_eq_true, not_false_iff,
        ite_false]
      rw [filter_ne_all t nid hall]
      simp
    · obtain ⟨n, hn, hnid2⟩ := hmem
      have hnt2 : n ∈ t := by
        rcases List.mem_cons.mp hn with h1 | h1
        · exact absurd (h1 ▸ hnid2) hid
        · exact h1
      have hta : (a.id != nid) = true := by simp [hid]
      simp only [List.filter_cons, hta, if_pos, List.length_cons]
      have := ih hnt ⟨n, hnt2, hnid2⟩
      omega

/-! ## Claim theorems -/

/-- C1: closing a note on a store with exactly one note leaves the store
unchanged and emits a user-visible notice (no error is raised, no write
occurs); closing a present id on a store of size at least two (with unique
ids) removes exactly that note, so the size drops by one, and the result is
persisted. -/
theorem c1_close_size (s : NotepadState) (nid : String) :
    (s.notes.length = 1 →
      (closeNote s nid).notes = s.notes ∧
      (closeNote s nid).toasts = s.toasts ++ ["Cannot close last note"] ∧
      (closeNote s nid).storedNotes = s.storedNotes ∧
      (closeNote s nid).writeCount = s.writeCount) ∧
    ((s.notes.map Note.id).Nodup → 2 ≤ s.notes.length → (∃ n ∈ s.notes, n.id = nid) →
      (closeNote s nid).notes.length + 1 = s.notes.length ∧
      (closeNote s nid).storedNotes = some (closeNote s nid).notes) := by
  constructor
  · intro h
    rw [closeNote_len1 s nid h]
    exact ⟨rfl, rfl, rfl, rfl⟩
  · intro hnd hlen hmem
    have h1 : ¬s.notes.length = 1 := by omega
    constructor
    · rw [closeNote_notes s nid h1]
      exact length_filter_ne s.notes nid hnd hmem
    · rw [closeNote_stored s nid h1, closeNote_notes s nid h1]

theorem c1_close_size_witness :
    ((closeNote oneNoteState "a").notes = oneNoteState.notes ∧
      (closeNote oneNoteState "a").toasts =
        oneNoteState.toasts ++ ["Cannot close last note"] ∧
      (closeNote oneNoteState "a").storedNotes = oneNoteState.storedNotes ∧
      (closeNote oneNoteState "a").writeCount = oneNoteState.writeCount) ∧
    ((closeNote sampleState "b").notes.length + 1 = sampleState.notes.length ∧
      (closeNote sampleState "b").storedNotes = some (closeNote sampleState "b").notes) :=
  ⟨(c1_close_size oneNoteState "a").1 (by decide),
   (c1_close_size sampleState "b").2 (by decide) (by decide) (by decide)⟩

/-- C9: closing an id that is not present, on a well-formed store of size at
least two, leaves the note list, the active selection and the toasts
unchanged, yet still performs one persistence write of the unchanged list. -/
theorem c9_close_absent (s : NotepadState) (nid : String)
    (hlen : 2 ≤ s.notes.length) (habs : ∀ n ∈ s.notes, n.id ≠ nid)
    (hval : activeValid s) :
    (closeNote s nid).notes = s.notes ∧
    (closeNote s nid).activeNoteId = s.activeNoteId ∧
    (closeNote s nid).storedLastActive = s.storedLastActive ∧
    (closeNote s nid).toasts = s.toasts ∧
    (closeNote s nid).writeCount = s.writeCount + 1 ∧
    (closeNote s nid).storedNotes = some s.notes := by
  have h1 : ¬s.notes.length = 1 := by omega
  have hact : ¬s.activeNoteId = some nid := by
    intro h
    obtain ⟨n, hn, hid⟩ := (activeValid_def s).mp hval nid h
    exact habs n hn hid
  have hfe := filter_ne_all s.notes nid habs
  rw [closeNote_eq s nid h1, if_neg hact, hfe]
  exact ⟨rfl, rfl, rfl, rfl, rfl, rfl⟩

theorem c9_close_absent_witness :
    (closeNote sampleState "zzz").notes = sampleState.notes ∧
    (closeNote sampleState "zzz").activeNoteId = sampleState.activeNoteId ∧
    (closeNote sampleState "zzz").storedLastActive = sampleState.storedLastActive ∧
    (closeNote sampleState "zzz").toasts = sampleState.toasts ∧
    (closeNote sampleState "zzz").writeCount = sampleState.writeCount + 1 ∧
    (closeNote sampleState "zzz").storedNotes = some sampleState.notes :=
  c9_close_absent sampleState "zzz" (by decide) (by decide) (by decide)

/-- C7: a fresh environment with no persisted data loads into a store with
exactly one note, the seed "Welcome" note, and the active selection pointing
to it. -/
theorem c7_fresh_load (lastActive : Option String) (now : Nat) :
    (loadNotes none lastActive now).notes = [firstNote now] ∧
    (firstNote now).title = "Welcome" ∧
    (loadNotes none lastActive now).activeNoteId = some (firstNote now).id :=
  ⟨rfl, rfl, rfl⟩

/-- C4: the markdown renderer maps `"# Hi\n**bold** and *em*"` to an `h1`
wrapping `Hi` (the header line is consumed before the newline-to-break
substitution), a `<br>` for the newline, and both emphasis markers
resolved. -/
theorem c4_markdown_example :
    renderMarkdown "# Hi\n**bold** and *em*" =
      "<h1 class=\"text-2xl font-bold mb-4\">Hi</h1><br><strong>bold</strong> and <em>em</em>" := by
  decide

lemma saveRename_eq (s : NotepadState) (rid : String) (now : Nat)
    (hrt : s.isRenamingTab = some rid) :
    saveRename s now =
      (if rid ≠ "" ∧ s.tempTitle.trim ≠ "" then
        { saveNotes { s with notes := s.notes.map (fun note =>
            if note.id = rid then
              { note with title := s.tempTitle.trim, lastModified := now }
            else note) } (s.notes.map (fun note =>
            if note.id = rid then
              { note with title := s.tempTitle.trim, lastModified := now }
            else note)) with isRenamingTab := none, tempTitle := "" }
      else { s with isRenamingTab := none, tempTitle := "" }) := by
  unfold saveRename
  rw [hrt]

/-- C6: `rename` is a no-op on the note list and the persisted state when the
trimmed new title is empty (in particular a whitespace-only title leaves every
title unchanged), and otherwise rewrites exactly the addressed note's title
and `lastModified` and persists the result. -/
theorem c6_rename (s : NotepadState) (rid : String) (now : Nat)
    (hrt : s.isRenamingTab = some rid) :
    (s.tempTitle.trim = "" →
      (saveRename s now).notes = s.notes ∧
      (saveRename s now).storedNotes = s.storedNotes ∧
      (saveRename s now).writeCount = s.writeCount) ∧
    (rid ≠ "" → s.tempTitle.trim ≠ "" →
      (saveRename s now).notes = s.notes.map (fun note =>
        if note.id = rid then
          { note with title := s.tempTitle.trim, lastModified := now }
        else note) ∧
      (saveRename s now).storedNotes = some ((saveRename s now).notes) ∧
      (saveRename s now).writeCount = s.writeCount + 1) := by
  constructor
  · intro hemp
    have hcond : ¬(rid ≠ "" ∧ s.tempTitle.trim ≠ "") := by simp [hemp]
    rw [saveRename_eq s rid now hrt, if_neg hcond]
    exact ⟨rfl, rfl, rfl⟩
  · intro hne hnt
    have hcond : rid ≠ "" ∧ s.tempTitle.trim ≠ "" := ⟨hne, hnt⟩
    rw [saveRename_eq s rid now hrt, if_pos hcond]
    exact ⟨rfl, rfl, rfl⟩

theorem c6_rename_witness :
    ((startRename sampleState "a" "  ").tempTitle.trim = "" →
      (saveRename (startRename sampleState "a" "  ") 9).notes =
        (startRename sampleState "a" "  ").notes ∧
      (saveRename (startRename sampleState "a" "  ") 9).storedNotes =
        (startRename sampleState "a" "  ").storedNotes ∧
      (saveRename (startRename sampleState "a" "  ") 9).writeCount =
        (startRename sampleState "a" "  ").writeCount) ∧
    ("a" ≠ "" → (startRename sampleState "a" "  ").tempTitle.trim ≠ "" →
      (saveRename (startRename sampleState "a" "  ") 9).notes =
        (startRename sampleState "a" "  ").notes.map (fun note =>
          if note.id = "a" then
            { note with title := (startRename sampleState "a" "  ").tempTitle.trim,
                        lastModified := 9 }
          else note) ∧
      (saveRename (startRename sampleState "a" "  ") 9).storedNotes =
        some ((saveRename (startRename sampleState "a" "  ") 9).notes) ∧
      (saveRename (startRename sampleState "a" "  ") 9).writeCount =
        (startRename sampleState "a" "  ").writeCount + 1) :=
  c6_rename (startRename sampleState "a" "  ") "a" 9 (by decide)

lemma length_removeAt (l : List Note) (i : Nat) (h : i < l.length) :
    (removeAt l i).length = l.length - 1 := by
  simp only [removeAt, List.length_append, List.length_take, List.length_drop]
  omega

lemma removeAt_insertAt (x : Note) :
    ∀ (l : List Note) (i : Nat), i ≤ l.length → removeAt (insertAt l i x) i = l := by
  intro l
  induction l with
  | nil =>
    intro i hi
    have : i = 0 := by simpa using hi
    subst this
    simp [insertAt, removeAt]
  | cons a t ih =>
    intro i hi
    cases i with
    | zero => simp [insertAt, removeAt]
    | succ j =>
      have hj : j ≤ t.length := by simpa using hi
      have h1 : insertAt (a :: t) (j + 1) x = a :: insertAt t j x := by
        simp [insertAt]
      have h2 : removeAt (a :: insertAt t j x) (j + 1) = a :: removeAt (insertAt t j x) j := by
        simp [removeAt]
      rw [h1, h2, ih j hj]

lemma insertAt_perm (l : List Note) (i : Nat) (x : Note) :
    List.Perm (insertAt l i x) (x :: l) := by
  have h1 : List.Perm (l.take i ++ x :: l.drop i) (x :: (l.take i ++ l.drop i)) :=
    List.perm_middle
  rw [List.take_append_drop] at h1
  exact h1

lemma get_cons_removeAt_perm (l : List Note) (i : Nat) (h : i < l.length) :
    List.Perm l (l.get ⟨i, h⟩ :: removeAt l i) := by
  have hd : l.drop i = l.get ⟨i, h⟩ :: l.drop (i + 1) := by
    rw [List.get_eq_getElem]
    exact List.drop_eq_getElem_cons h
  have h1 : List.Perm (l.take i ++ l.get ⟨i, h⟩ :: l.drop (i + 1))
      (l.get ⟨i, h⟩ :: (l.take i ++ l.drop (i + 1))) := List.perm_middle
  rw [← hd, List.take_append_drop] at h1
  exact h1

/-- C5: for valid indices, `reorder` removes the note at the source index and
reinserts it at the destination index, preserves the relative order of all
other notes (removing the reinserted element recovers the source list with
the element deleted), changes no note record (the result is a permutation of
the input, so no `lastModified` is touched), and persists immediately without
touching the debounce state. -/
theorem c5_reorder (s : NotepadState) (srcIdx dstIdx : Nat)
    (hs : srcIdx < s.notes.length) (hd : dstIdx < s.notes.length) :
    (handleDragEnd s srcIdx dstIdx).notes =
      insertAt (removeAt s.notes srcIdx) dstIdx (s.notes.get ⟨srcIdx, hs⟩) ∧
    removeAt (handleDragEnd s srcIdx dstIdx).notes dstIdx = removeAt s.notes srcIdx ∧
    List.Perm (handleDragEnd s srcIdx dstIdx).notes s.notes ∧
    (handleDragEnd s srcIdx dstIdx).storedNotes =
      some ((handleDragEnd s srcIdx dstIdx).notes) ∧
    (handleDragEnd s srcIdx dstIdx).writeCount = s.writeCount + 1 ∧
    (handleDragEnd s srcIdx dstIdx).pending = s.pending := by
  have hget : s.notes[srcIdx]? = some (s.notes.get ⟨srcIdx, hs⟩) := by
    rw [List.getElem?_eq_getElem hs, List.get_eq_getElem]
  have hde : handleDragEnd s srcIdx dstIdx =
      saveNotes
        { s with notes := insertAt (removeAt s.notes srcIdx) dstIdx (s.notes.get ⟨srcIdx, hs⟩) }
        (insertAt (removeAt s.notes srcIdx) dstIdx (s.notes.get ⟨srcIdx, hs⟩)) := by
    unfold handleDragEnd
    rw [hget]
  rw [hde]
  refine ⟨rfl, ?_, ?_, rfl, rfl, rfl⟩
  · apply removeAt_insertAt
    rw [length_removeAt s.notes srcIdx hs]
    omega
  · exact List.Perm.trans (insertAt_perm _ _ _) (get_cons_removeAt_perm s.notes srcIdx hs).symm

theorem c5_reorder_witness :
    (handleDragEnd sampleState 0 1).notes =
      insertAt (removeAt sampleState.notes 0) 1 (sampleState.notes.get ⟨0, by decide⟩) ∧
    removeAt (handleDragEnd sampleState 0 1).notes 1 = removeAt sampleState.notes 0 ∧
    List.Perm (handleDragEnd sampleState 0 1).notes sampleState.notes ∧
    (handleDragEnd sampleState 0 1).storedNotes =
      some ((handleDragEnd sampleState 0 1).notes) ∧
    (handleDragEnd sampleState 0 1).writeCount = sampleState.writeCount + 1 ∧
    (handleDragEnd sampleState 0 1).pending = sampleState.pending :=
  c5_reorder sampleState 0 1 (by decide) (by decide)

lemma find?_of_ex (l : List Note) (act : Option String) (aid : String)
    (ha : act = some aid) (hex : ∃ n ∈ l, n.id = aid) :
    ∃ m, l.find? (fun note => some note.id == act) = some m := by
  obtain ⟨n, hn, hid⟩ := hex
  have hs : (l.find? (fun note => some note.id == act)).isSome := by
    rw [List.find?_isSome]
    exact ⟨n, hn, by simp [ha, hid]⟩
  exact Option.isSome_iff_exists.mp hs

lemma manualSave_found (s : NotepadState) (m : Note)
    (hf : s.notes.find? (fun note => some note.id == s.activeNoteId) = some m) :
    manualSave s =
      { saveNotes { s with pending := none } s.notes with
        toasts := (saveNotes { s with pending := none } s.notes).toasts ++
          [m.title ++ " has been saved."] } := by
  unfold manualSave
  rw [hf]

lemma manualSave_notes (s : NotepadState) : (manualSave s).notes = s.notes := by
  unfold manualSave
  split <;> rfl

lemma manualSave_pending (s : NotepadState) : (manualSave s).pending = none := by
  unfold manualSave
  split <;> rfl

lemma map_lastModified_content (l : List Note) (a : Option String) (c : String) :
    (l.map (fun note =>
      if some note.id = a then { note with content := c } else note)).map Note.lastModified =
    l.map Note.lastModified := by
  rw [List.map_map]
  have hfg : (Note.lastModified ∘ fun note =>
      if some note.id = a then { note with content := c } else note) = Note.lastModified := by
    funext n
    by_cases hcase : some n.id = a <;> simp [Function.comp, hcase]
  rw [hfg]

lemma edit_notes_eq (s : NotepadState) (content : String) (aid : String)
    (ha : s.activeNoteId = some aid) :
    (handleContentChange s content).notes = s.notes.map (fun note =>
      if note.id = aid then { note with content := content } else note) := by
  show s.notes.map (fun note =>
      if some note.id = s.activeNoteId then { note with content := content } else note) = _
  simp only [ha, Option.some.injEq]

/-- C10: `manualSave` never changes any note (in particular no `lastModified`
is updated) and always clears the pending debounced write; with a valid
active note it persists the current in-memory list as-is; hence an edit
followed by `manualSave` before the debounce fires persists the new content
with every `lastModified` unchanged, and the cancelled debounce bump never
occurs. -/
theorem c10_manual_save (s : NotepadState) :
    ((manualSave s).notes = s.notes ∧ (manualSave s).pending = none) ∧
    (∀ aid, s.activeNoteId = some aid → (∃ n ∈ s.notes, n.id = aid) →
      (manualSave s).storedNotes = some s.notes ∧
      (manualSave s).writeCount = s.writeCount + 1) ∧
    (∀ content aid, s.activeNoteId = some aid → (∃ n ∈ s.notes, n.id = aid) →
      (manualSave (handleContentChange s content)).notes =
        s.notes.map (fun note =>
          if note.id = aid then { note with content := content } else note) ∧
      (manualSave (handleContentChange s content)).storedNotes =
        some ((manualSave (handleContentChange s content)).notes) ∧
      (manualSave (handleContentChange s content)).notes.map Note.lastModified =
        s.notes.map Note.lastModified ∧
      (manualSave (handleContentChange s content)).pending = none) := by
  refine ⟨⟨manualSave_notes s, manualSave_pending s⟩, ?_, ?_⟩
  · intro aid ha hex
    obtain ⟨m, hf⟩ := find?_of_ex s.notes s.activeNoteId aid ha hex
    rw [manualSave_found s m hf]
    exact ⟨rfl, rfl⟩
  · intro content aid ha hex
    have ha1 : (handleContentChange s content).activeNoteId = some aid := ha
    have hex1 : ∃ n ∈ (handleContentChange s content).notes, n.id = aid := by
      obtain ⟨n, hn, hid⟩ := hex
      rw [edit_notes_eq s content aid ha]
      refine ⟨if n.id = aid then { n with content := content } else n,
        List.mem_map_of_mem _ hn, ?_⟩
      by_cases hcase : n.id = aid <;> simp [hcase, hid]
    obtain ⟨m, hf⟩ := find?_of_ex _ _ aid ha1 hex1
    have hnotes : (manualSave (handleContentChange s content)).notes =
        s.notes.map (fun note =>
          if note.id = aid then { note with content := content } else note) := by
      rw [manualSave_notes, edit_notes_eq s content aid ha]
    refine ⟨hnotes, ?_, ?_, manualSave_pending _⟩
    · rw [manualSave_found _ m hf]
      rfl
    · rw [hnotes]
      have := map_lastModified_content s.notes (some aid) content
      simp only [Option.some.injEq] at this
      exact this

theorem c10_manual_save_witness :
    ((manualSave sampleState).notes = sampleState.notes ∧
      (manualSave sampleState).pending = none) ∧
    ((manualSave sampleState).storedNotes = some sampleState.notes ∧
      (manualSave sampleState).writeCount = sampleState.writeCount + 1) ∧
    ((manualSave (handleContentChange sampleState "new text")).notes =
        sampleState.notes.map (fun note =>
          if note.id = "a" then { note with content := "new text" } else note) ∧
      (manualSave (handleContentChange sampleState "new text")).storedNotes =
        some ((manualSave (handleContentChange sampleState "new text")).notes) ∧
      (manualSave (handleContentChange sampleState "new text")).notes.map Note.lastModified =
        sampleState.notes.map Note.lastModified ∧
      (manualSave (handleContentChange sampleState "new text")).pending = none) :=
  ⟨(c10_manual_save sampleState).1,
   (c10_manual_save sampleState).2.1 "a" (by decide) (by decide),
   (c10_manual_save sampleState).2.2 "new text" "a" (by decide) (by decide)⟩

lemma map_content_twice (l : List Note) (a : Option String) (cOld cNew : String) :
    (l.map (fun note =>
        if some note.id = a then { note with content := cOld } else note)).map
      (fun note => if some note.id = a then { note with content := cNew } else note) =
    l.map (fun note =>
      if some note.id = a then { note with content := cNew } else note) := by
  rw [List.map_map]
  have hfg : ((fun (note : Note) =>
        if some note.id = a then { note with content := cNew } else note) ∘
      (fun (note : Note) =>
        if some note.id = a then { note with content := cOld } else note)) =
      (fun (note : Note) =>
        if some note.id = a then { note with content := cNew } else note) := by
    funext n
    by_cases hcase : some n.id = a <;> simp [Function.comp, hcase]
  rw [hfg]

lemma map_content_then_fire (l : List Note) (aid : String) (cOld cNew : String)
    (now : Nat) :
    (l.map (fun note =>
        if some note.id = some aid then { note with content := cOld } else note)).map
      (fun note =>
        if note.id = aid then { note with content := cNew, lastModified := now }
        else note) =
    l.map (fun note =>
      if note.id = aid then { note with content := cNew, lastModified := now }
      else note) := by
  rw [List.map_map]
  have hfg : ((fun (note : Note) =>
        if note.id = aid then { note with content := cNew, lastModified := now }
        else note) ∘
      (fun (note : Note) =>
        if some note.id = some aid then { note with content := cOld } else note)) =
      (fun (note : Note) =>
        if note.id = aid then { note with content := cNew, lastModified := now }
        else note) := by
    funext n
    by_cases hcase : n.id = aid <;> simp [Function.comp, hcase]
  rw [hfg]

/-- C3: three `editContent` calls inside the quiescence window perform no
persistence write themselves and leave every `lastModified` untouched; the
single debounce firing then performs exactly one persistence write whose
persisted content for the active note is the last of the three values, and
only that firing bumps the active note's `lastModified`. -/
theorem c3_debounce (s : NotepadState) (ca cb cc : String) (aid : String) (now : Nat)
    (ha : s.activeNoteId = some aid) :
    (handleContentChange (handleContentChange (handleContentChange s ca) cb) cc).writeCount =
      s.writeCount ∧
    (handleContentChange (handleContentChange (handleContentChange s ca) cb) cc).storedNotes =
      s.storedNotes ∧
    (handleContentChange (handleContentChange (handleContentChange s ca) cb) cc).notes.map
      Note.lastModified = s.notes.map Note.lastModified ∧
    (fireDebounce
        (handleContentChange (handleContentChange (handleContentChange s ca) cb) cc)
        now).writeCount = s.writeCount + 1 ∧
    (fireDebounce
        (handleContentChange (handleContentChange (handleContentChange s ca) cb) cc)
        now).notes =
      s.notes.map (fun note =>
        if note.id = aid then { note with content := cc, lastModified := now }
        else note) ∧
    (fireDebounce
        (handleContentChange (handleContentChange (handleContentChange s ca) cb) cc)
        now).storedNotes =
      some ((fireDebounce
        (handleContentChange (handleContentChange (handleContentChange s ca) cb) cc)
        now).notes) := by
  have h3notes :
      (handleContentChange (handleContentChange (handleContentChange s ca) cb) cc).notes =
      s.notes.map (fun note =>
        if some note.id = s.activeNoteId then { note with content := cc } else note) := by
    show ((s.notes.map (fun note =>
        if some note.id = s.activeNoteId then { note with content := ca } else note)).map
      (fun note =>
        if some note.id = s.activeNoteId then { note with content := cb } else note)).map
      (fun note =>
        if some note.id = s.activeNoteId then { note with content := cc } else note) = _
    rw [map_content_twice, map_content_twice]
  have hpend :
      (handleContentChange (handleContentChange (handleContentChange s ca) cb) cc).pending =
      some (cc, s.activeNoteId) := rfl
  have hfire : fireDebounce
      (handleContentChange (handleContentChange (handleContentChange s ca) cb) cc) now =
      saveNotes
        { (handleContentChange (handleContentChange (handleContentChange s ca) cb) cc) with
          notes := (handleContentChange (handleContentChange (handleContentChange s ca) cb)
            cc).notes.map (fun note =>
              if note.id = aid then { note with content := cc, lastModified := now }
              else note),
          pending := none }
        ((handleContentChange (handleContentChange (handleContentChange s ca) cb)
            cc).notes.map (fun note =>
              if note.id = aid then { note with content := cc, lastModified := now }
              else note)) := by
    unfold fireDebounce
    rw [hpend, ha]
  have hfnotes : (fireDebounce
      (handleContentChange (handleContentChange (handleContentChange s ca) cb) cc)
      now).notes =
      s.notes.map (fun note =>
        if note.id = aid then { note with content := cc, lastModified := now }
        else note) := by
    rw [hfire]
    show (handleContentChange (handleContentChange (handleContentChange s ca) cb)
        cc).notes.map (fun note =>
          if note.id = aid then { note with content := cc, lastModified := now }
          else note) = _
    rw [h3notes, ha, map_content_then_fire]
  refine ⟨rfl, rfl, ?_, ?_, hfnotes, ?_⟩
  · rw [h3notes]
    exact map_lastModified_content s.notes s.activeNoteId cc
  · rw [hfire]
    rfl
  · rw [hfire]
    rfl

theorem c3_debounce_witness :
    (handleContentChange (handleContentChange (handleContentChange sampleState "x") "y")
      "z").writeCount = sampleState.writeCount ∧
    (handleContentChange (handleContentChange (handleContentChange sampleState "x") "y")
      "z").storedNotes = sampleState.storedNotes ∧
    (handleContentChange (handleContentChange (handleContentChange sampleState "x") "y")
      "z").notes.map Note.lastModified = sampleState.notes.map Note.lastModified ∧
    (fireDebounce
        (handleContentChange (handleContentChange (handleContentChange sampleState "x") "y")
          "z") 9).writeCount = sampleState.writeCount + 1 ∧
    (fireDebounce
        (handleContentChange (handleContentChange (handleContentChange sampleState "x") "y")
          "z") 9).notes =
      sampleState.notes.map (fun note =>
        if note.id = "a" then { note with content := "z", lastModified := 9 }
        else note) ∧
    (fireDebounce
        (handleContentChange (handleContentChange (handleContentChange sampleState "x") "y")
          "z") 9).storedNotes =
      some ((fireDebounce
        (handleContentChange (handleContentChange (handleContentChange sampleState "x") "y")
          "z") 9).notes) :=
  c3_debounce sampleState "x" "y" "z" "a" 9 (by decide)

lemma activeValid_same (s s2 : NotepadState)
    (hnotes : s2.notes = s.notes) (hact : s2.activeNoteId = s.activeNoteId)
    (h : activeValid s) : activeValid s2 := by
  rw [activeValid_def] at h ⊢
  intro aid haid
  rw [hact] at haid
  rw [hnotes]
  exact h aid haid

lemma activeValid_of_map (s s2 : NotepadState) (f : Note → Note)
    (hid : ∀ n, (f n).id = n.id)
    (hnotes : s2.notes = s.notes.map f) (hact : s2.activeNoteId = s.activeNoteId)
    (h : activeValid s) : activeValid s2 := by
  rw [activeValid_def] at h ⊢
  intro aid haid
  rw [hact] at haid
  obtain ⟨n, hn, hid2⟩ := h aid haid
  rw [hnotes]
  exact ⟨f n, List.mem_map_of_mem f hn, (hid n).trans hid2⟩

lemma loadNotes_valid (savedNotes : Option (List Note)) (la : Option String)
    (now : Nat) : activeValid (loadNotes savedNotes la now) := by
  rw [activeValid_def]
  intro aid haid
  cases savedNotes with
  | none =>
    simp only [loadNotes] at haid ⊢
    obtain rfl : "1" = aid := by simpa using haid
    exact ⟨firstNote now, List.mem_cons_self _ _, rfl⟩
  | some parsed =>
    simp only [loadNotes] at haid ⊢
    cases la with
    | none =>
      cases parsed with
      | nil => simp at haid
      | cons n t =>
        simp only at haid
        obtain rfl : n.id = aid := by simpa using haid
        exact ⟨n, List.mem_cons_self n t, rfl⟩
    | some la2 =>
      dsimp only at haid
      by_cases hcond : la2 ≠ "" ∧ parsed.any (fun n => n.id == la2)
      · rw [if_pos hcond] at haid
        obtain rfl : la2 = aid := by simpa using haid
        obtain ⟨n, hn, hid⟩ := List.any_eq_true.mp hcond.2
        exact ⟨n, hn, by simpa using hid⟩
      · rw [if_neg hcond] at haid
        cases parsed with
        | nil => simp at haid
        | cons n t =>
          simp only at haid
          obtain rfl : n.id = aid := by simpa using haid
          exact ⟨n, List.mem_cons_self n t, rfl⟩

lemma createNewNote_valid (s : NotepadState) (now : Nat) :
    activeValid (createNewNote s now) := by
  rw [activeValid_def]
  intro aid haid
  simp only [createNewNote, saveNotes] at haid ⊢
  obtain rfl : Nat.repr now = aid := by simpa using haid
  exact ⟨{ id := Nat.repr now, title := "Untitled", content := "", lastModified := now },
    by simp, rfl⟩

lemma orNull_some (o : Option String) (a : String) (h : orNull o = some a) :
    o = some a ∧ a ≠ "" := by
  cases o with
  | none => simp [orNull] at h
  | some str =>
    by_cases hstr : str = ""
    · simp [orNull, hstr] at h
    · simp only [orNull, if_neg hstr, Option.some.injEq] at h
      exact ⟨by rw [h], by rw [← h]; exact hstr⟩

lemma head?_mem (l : List Note) (x : Note) (h : l.head? = some x) : x ∈ l := by
  cases l with
  | nil => simp at h
  | cons b t =>
    simp only [List.head?_cons, Option.some.injEq] at h
    exact h ▸ List.mem_cons_self b t

lemma closeNote_valid (s : NotepadState) (nid : String) (h : activeValid s) :
    activeValid (closeNote s nid) := by
  by_cases h1 : s.notes.length = 1
  · rw [closeNote_len1 s nid h1]
    exact activeValid_same s _ rfl rfl h
  · by_cases hact : s.activeNoteId = some nid
    · rw [closeNote_eq s nid h1, if_pos hact]
      rcases hh : orNull (((s.notes.filter (fun note => note.id != nid)).head?).map Note.id)
        with _ | a
      · simp only [hh]
        rw [activeValid_def]
        intro aid haid
        simp at haid
      · simp only [hh]
        rw [activeValid_def]
        intro aid haid
        obtain rfl : a = aid := by simpa using haid
        obtain ⟨ho, _⟩ := orNull_some _ _ hh
        cases hfl : (s.notes.filter (fun note => note.id != nid)).head? with
        | none => rw [hfl] at ho; simp at ho
        | some n0 =>
          rw [hfl] at ho
          simp only [Option.map_some', Option.some.injEq] at ho
          exact ⟨n0, head?_mem _ _ hfl, ho⟩
    · rw [closeNote_eq s nid h1, if_neg hact]
      rw [activeValid_def] at h ⊢
      intro aid haid
      have haid2 : s.activeNoteId = some aid := haid
      obtain ⟨n, hn, hid⟩ := h aid haid2
      have hne : n.id ≠ nid := by
        intro he
        exact hact (by rw [haid2, ← hid, he])
      refine ⟨n, ?_, hid⟩
      show n ∈ List.filter (fun note => note.id != nid) s.notes
      rw [List.mem_filter]
      exact ⟨hn, by simpa [bne_iff_ne] using hne⟩

lemma switchToNote_valid (s : NotepadState) (nid : String)
    (hg : ∃ n ∈ s.notes, n.id = nid) : activeValid (switchToNote s nid) := by
  rw [activeValid_def]
  intro aid haid
  simp only [switchToNote] at haid ⊢
  obtain rfl : nid = aid := by simpa using haid
  exact hg

lemma saveRename_active (s : NotepadState) (now : Nat) :
    (saveRename s now).activeNoteId = s.activeNoteId := by
  unfold saveRename
  split
  · split <;> rfl
  · rfl

lemma saveRename_notes_cases (s : NotepadState) (now : Nat) :
    (saveRename s now).notes = s.notes ∨
    ∃ rid, (saveRename s now).notes = s.notes.map (fun note =>
      if note.id = rid then { note with title := s.tempTitle.trim, lastModified := now }
      else note) := by
  unfold saveRename
  split
  · split
    · right; exact ⟨_, rfl⟩
    · left; rfl
  · left; rfl

lemma saveRename_valid (s : NotepadState) (now : Nat) (h : activeValid s) :
    activeValid (saveRename s now) := by
  rcases saveRename_notes_cases s now with hc | ⟨rid, hc⟩
  · exact activeValid_same s _ hc (saveRename_active s now) h
  · refine activeValid_of_map s _ _ ?_ hc (saveRename_active s now) h
    intro n
    by_cases hx : n.id = rid <;> simp [hx]

lemma handleContentChange_valid (s : NotepadState) (content : String)
    (h : activeValid s) : activeValid (handleContentChange s content) := by
  refine activeValid_of_map s _ (fun note =>
    if some note.id = s.activeNoteId then { note with content := content } else note)
    ?_ rfl rfl h
  intro n
  by_cases hx : some n.id = s.activeNoteId <;> simp [hx]

lemma fireDebounce_active (s : NotepadState) (now : Nat) :
    (fireDebounce s now).activeNoteId = s.activeNoteId := by
  unfold fireDebounce
  split
  · rfl
  · split <;> rfl

lemma fireDebounce_notes_cases (s : NotepadState) (now : Nat) :
    (fireDebounce s now).notes = s.notes ∨
    ∃ aid content, (fireDebounce s now).notes = s.notes.map (fun note =>
      if note.id = aid then { note with content := content, lastModified := now }
      else note) := by
  unfold fireDebounce
  split
  · left; rfl
  · split
    · left; rfl
    · right; exact ⟨_, _, rfl⟩

lemma fireDebounce_valid (s : NotepadState) (now : Nat) (h : activeValid s) :
    activeValid (fireDebounce s now) := by
  rcases fireDebounce_notes_cases s now with hc | ⟨aid, content, hc⟩
  · exact activeValid_same s _ hc (fireDebounce_active s now) h
  · refine activeValid_of_map s _ _ ?_ hc (fireDebounce_active s now) h
    intro n
    by_cases hx : n.id = aid <;> simp [hx]

lemma manualSave_active (s : NotepadState) :
    (manualSave s).activeNoteId = s.activeNoteId := by
  unfold manualSave
  split <;> rfl

lemma handleDragEnd_valid (s : NotepadState) (srcIdx dstIdx : Nat)
    (h : activeValid s) : activeValid (handleDragEnd s srcIdx dstIdx) := by
  cases hg : s.notes[srcIdx]? with
  | none =>
    have : handleDragEnd s srcIdx dstIdx = s := by
      unfold handleDragEnd
      rw [hg]
    rw [this]
    exact h
  | some x =>
    obtain ⟨hlt, hx⟩ := List.getElem?_eq_some.mp hg
    have hde : handleDragEnd s srcIdx dstIdx =
        saveNotes { s with notes := insertAt (removeAt s.notes srcIdx) dstIdx x }
          (insertAt (removeAt s.notes srcIdx) dstIdx x) := by
      unfold handleDragEnd
      rw [hg]
    have hperm : List.Perm (insertAt (removeAt s.notes srcIdx) dstIdx x) s.notes := by
      have h2 := get_cons_removeAt_perm s.notes srcIdx hlt
      rw [List.get_eq_getElem, hx] at h2
      exact List.Perm.trans (insertAt_perm _ _ _) h2.symm
    rw [hde]
    rw [activeValid_def] at h ⊢
    intro aid haid
    obtain ⟨n, hn, hid⟩ := h aid haid
    exact ⟨n, hperm.symm.subset hn, hid⟩

lemma manualSave_valid (s : NotepadState) (h : activeValid s) :
    activeValid (manualSave s) := by
  exact activeValid_same s _ (manualSave_notes s) (manualSave_active s) h

/-- C2: in every reachable state the active selection, whenever non-null, is
the id of a note present in the store; and closing the currently active note
re-selects the first remaining note (whose id, per the data model, is
non-empty). -/
theorem c2_active_selection :
    (∀ s, Reachable s → activeValid s) ∧
    (∀ (s : NotepadState) (aid : String) (n : Note) (rest : List Note),
      s.activeNoteId = some aid → ¬s.notes.length = 1 →
      s.notes.filter (fun note => note.id != aid) = n :: rest → n.id ≠ "" →
      (closeNote s aid).activeNoteId = some n.id) := by
  constructor
  · intro s hr
    induction hr with
    | load saved la now => exact loadNotes_valid saved la now
    | create s now _ ih => exact createNewNote_valid s now
    | close s nid _ ih => exact closeNote_valid s nid ih
    | switch s nid hg _ ih => exact switchToNote_valid s nid hg
    | startRen s nid t _ ih => exact activeValid_same s _ rfl rfl ih
    | saveRen s now _ ih => exact saveRename_valid s now ih
    | edit s c _ ih => exact handleContentChange_valid s c ih
    | fire s now _ ih => exact fireDebounce_valid s now ih
    | drag s i j _ ih => exact handleDragEnd_valid s i j ih
    | save s _ ih => exact manualSave_valid s ih
  · intro s aid n rest hact hlen hfil hne
    rw [closeNote_eq s aid hlen, if_pos hact, hfil]
    simp only [List.head?_cons, Option.map_some', orNull, if_neg hne]

theorem c2_active_selection_witness :
    activeValid (loadNotes none none 0) ∧
    (closeNote sampleState "a").activeNoteId = some noteB.id :=
  ⟨c2_active_selection.1 _ (Reachable.load none none 0),
   c2_active_selection.2 sampleState "a" noteB [] (by decide) (by decide) (by decide)
     (by decide)⟩

lemma stripLit_prepend : ∀ (a b s : List Char), stripLit (a ++ b) (a ++ s) = stripLit b s := by
  intro a
  induction a with
  | nil => intro b s; rfl
  | cons c a2 ih =>
    intro b s
    show (if c = c then stripLit (a2 ++ b) (a2 ++ s) else none) = stripLit b s
    rw [if_pos rfl, ih]

lemma hexVal_hexDigitChar : ∀ m, m < 16 → hexVal (hexDigitChar m) = some m := by decide

lemma decStr_escChar (c : Char) (tail : List Char) (fuel : Nat) :
    decStrAux (fuel + 1) (escChar c ++ tail) = consFst c (decStrAux fuel tail) := by
  unfold escChar
  split_ifs with h1 h2 h3 h4 h5 h6 h7 h8
  · subst h1; rfl
  · subst h2; rfl
  · subst h3; rfl
  · subst h4; rfl
  · subst h5; rfl
  · have hc : c = Char.ofNat 8 := by rw [← h6, Char.ofNat_toNat]
    rw [hc]; rfl
  · have hc : c = Char.ofNat 12 := by rw [← h7, Char.ofNat_toNat]
    rw [hc]; rfl
  · have ht : Char.ofNat c.toNat = c := Char.ofNat_toNat c
    obtain ⟨t, htt⟩ : ∃ t, c.toNat = t := ⟨c.toNat, rfl⟩
    rw [htt] at h8 ht
    rw [htt, ← ht]
    interval_cases t <;> rfl
  · show decStrAux (fuel + 1) (c :: tail) = consFst c (decStrAux fuel tail)
    simp only [decStrAux]
    rw [if_neg h1, if_neg h2]

lemma decStr_escStr : ∀ (cs : List Char) (fuel : Nat) (tail : List Char),
    cs.length < fuel →
    decStrAux fuel (escStr cs ++ '"' :: tail) = some (cs, tail) := by
  intro cs
  induction cs with
  | nil =>
    intro fuel tail hf
    cases fuel with
    | zero => omega
    | succ f => rfl
  | cons c cs2 ih =>
    intro fuel tail hf
    cases fuel with
    | zero => omega
    | succ f =>
      have hsp : escStr (c :: cs2) ++ '"' :: tail =
          escChar c ++ (escStr cs2 ++ '"' :: tail) := by
        show (escChar c ++ escStr cs2) ++ '"' :: tail = _
        rw [List.append_assoc]
      rw [hsp, decStr_escChar, ih f tail (by simpa using hf)]
      rfl

lemma len_le_escStr : ∀ cs : List Char, cs.length ≤ (escStr cs).length := by
  intro cs
  induction cs with
  | nil => simp [escStr]
  | cons c cs2 ih =>
    have hpos : 1 ≤ (escChar c).length := by
      unfold escChar
      split_ifs <;> simp
    show (c :: cs2).length ≤ (escChar c ++ escStr cs2).length
    rw [List.length_cons, List.length_append]
    omega

lemma encNatAux_append : ∀ (fuel n : Nat) (acc : List Char),
    encNatAux fuel n acc = encNatAux fuel n [] ++ acc := by
  intro fuel
  induction fuel with
  | zero => intro n acc; rfl
  | succ f ih =>
    intro n acc
    by_cases hn : n < 10
    · show (if n < 10 then _ else _) = (if n < 10 then _ else _) ++ acc
      rw [if_pos hn, if_pos hn]
      rfl
    · show (if n < 10 then _ else _) = (if n < 10 then _ else _) ++ acc
      rw [if_neg hn, if_neg hn, ih (n / 10) [Char.ofNat (48 + n % 10)],
        ih (n / 10) (Char.ofNat (48 + n % 10) :: acc)]
      simp

lemma encNatAux_digits : ∀ (fuel n : Nat), ∀ c ∈ encNatAux fuel n [], c.isDigit := by
  have hdig : ∀ m, m < 10 → (Char.ofNat (48 + m)).isDigit = true := by decide
  intro fuel
  induction fuel with
  | zero =>
    intro n c hc
    simp only [encNatAux, List.mem_singleton] at hc
    rw [hc]
    exact hdig (n % 10) (Nat.mod_lt n (by decide))
  | succ f ih =>
    intro n c hc
    by_cases hn : n < 10
    · rw [show encNatAux (f + 1) n [] = [Char.ofNat (48 + n % 10)] from by
        show (if n < 10 then _ else _) = _; rw [if_pos hn]] at hc
      simp only [List.mem_singleton] at hc
      rw [hc]
      exact hdig (n % 10) (Nat.mod_lt n (by decide))
    · rw [show encNatAux (f + 1) n [] = encNatAux f (n / 10) [Char.ofNat (48 + n % 10)] from by
        show (if n < 10 then _ else _) = _; rw [if_neg hn]] at hc
      rw [encNatAux_append] at hc
      rcases List.mem_append.mp hc with hmem | hmem
      · exact ih (n / 10) c hmem
      · simp only [List.mem_singleton] at hmem
        rw [hmem]
        exact hdig (n % 10) (Nat.mod_lt n (by omega))

lemma encNat_digits (n : Nat) : ∀ c ∈ encNat n, c.isDigit :=
  encNatAux_digits n n

lemma encNatAux_ne_nil : ∀ (fuel n : Nat) (acc : List Char), encNatAux fuel n acc ≠ [] := by
  intro fuel
  induction fuel with
  | zero => intro n acc; simp [encNatAux]
  | succ f ih =>
    intro n acc
    by_cases hn : n < 10
    · rw [show encNatAux (f + 1) n acc = Char.ofNat (48 + n % 10) :: acc from by
        show (if n < 10 then _ else _) = _; rw [if_pos hn]]
      simp
    · rw [show encNatAux (f + 1) n acc =
          encNatAux f (n / 10) (Char.ofNat (48 + n % 10) :: acc) from by
        show (if n < 10 then _ else _) = _; rw [if_neg hn]]
      exact ih _ _

lemma decNatAux_digits (ds : List Char) :
    ∀ (r : List Char) (v : Nat), (∀ c ∈ ds, c.isDigit) →
    decNatAux (ds ++ '\x7d' :: r) v =
      (List.foldl (fun a c => a * 10 + (c.toNat - 48)) v ds, '\x7d' :: r) := by
  induction ds with
  | nil =>
    intro r v _
    rfl
  | cons d ds2 ih =>
    intro r v h
    have hd : d.isDigit = true := h d (List.mem_cons_self d ds2)
    show (if d.isDigit then _ else _) = _
    rw [if_pos hd]
    show decNatAux (ds2 ++ '\x7d' :: r) (v * 10 + (d.toNat - 48)) = _
    rw [ih r (v * 10 + (d.toNat - 48)) (fun c hc => h c (List.mem_cons_of_mem d hc))]
    rfl

lemma foldl_encNatAux : ∀ (fuel n : Nat), n ≤ fuel →
    List.foldl (fun a c => a * 10 + (c.toNat - 48)) 0 (encNatAux fuel n []) = n := by
  have htn : ∀ m, m < 10 → (Char.ofNat (48 + m)).toNat = 48 + m := by decide
  intro fuel
  induction fuel with
  | zero =>
    intro n hn
    have hn0 : n = 0 := by omega
    subst hn0
    decide
  | succ f ih =>
    intro n hn
    by_cases h10 : n < 10
    · rw [show encNatAux (f + 1) n [] = [Char.ofNat (48 + n % 10)] from by
        show (if n < 10 then _ else _) = _; rw [if_pos h10]]
      simp only [List.foldl_cons, List.foldl_nil]
      rw [htn (n % 10) (Nat.mod_lt n (by omega))]
      omega
    · rw [show encNatAux (f + 1) n [] = encNatAux f (n / 10) [Char.ofNat (48 + n % 10)] from by
        show (if n < 10 then _ else _) = _; rw [if_neg h10]]
      rw [encNatAux_append, List.foldl_append]
      have hd : n / 10 ≤ f := by
        have := Nat.div_lt_self (by omega : 0 < n) (by omega : 1 < 10)
        omega
      rw [ih (n / 10) hd]
      simp only [List.foldl_cons, List.foldl_nil]
      rw [htn (n % 10) (Nat.mod_lt n (by omega))]
      omega

lemma foldl_encNat (n : Nat) :
    List.foldl (fun a c => a * 10 + (c.toNat - 48)) 0 (encNat n) = n :=
  foldl_encNatAux n n (Nat.le_refl n)

lemma stripLit_self : ∀ (a s : List Char), stripLit a (a ++ s) = some s := by
  intro a s
  have h := stripLit_prepend a [] s
  rw [List.append_nil] at h
  rw [h]
  rfl

lemma stripLit_quote : ∀ X : List Char, stripLit ['"'] ('"' :: X) = some X := by
  intro X
  show (if '"' = '"' then stripLit [] X else none) = some X
  rw [if_pos rfl]
  rfl

lemma stripLit_brace : ∀ X : List Char, stripLit ['\x7d'] ('\x7d' :: X) = some X := by
  intro X
  show (if '\x7d' = '\x7d' then stripLit [] X else none) = some X
  rw [if_pos rfl]
  rfl

lemma string_mk_data : ∀ s : String, String.mk s.data = s := by
  intro s
  cases s
  rfl

lemma decNote_encNote (n : Note) (tail : List Char) :
    decNote (encNote n ++ tail) = some (n, tail) := by
  have m1 : ("\x7b\"id\":\"").data = ("\x7b\"id\":").data ++ ['"'] := by decide
  have m2 : (",\"title\":\"").data = (",\"title\":").data ++ ['"'] := by decide
  have m3 : (",\"content\":\"").data = (",\"content\":").data ++ ['"'] := by decide
  have m5 : ("\x7d").data = ['\x7d'] := by decide
  have hs : encNote n ++ tail =
      ("\x7b\"id\":").data ++ ('"' :: (escStr n.id.data ++ ('"' ::
        ((",\"title\":").data ++ ('"' :: (escStr n.title.data ++ ('"' ::
        ((",\"content\":").data ++ ('"' :: (escStr n.content.data ++ ('"' ::
        ((",\"lastModified\":").data ++ (encNat n.lastModified ++
        (("\x7d").data ++ tail)))))))))))))) := by
    simp [encNote, encString, List.append_assoc]
  unfold decNote
  rw [hs, m1, stripLit_prepend, stripLit_quote]
  dsimp only
  rw [decStr_escStr n.id.data _ _ (by
    rw [List.length_append, List.length_cons]
    have := len_le_escStr n.id.data
    omega)]
  dsimp only
  have m2l : ([',', '"', 't', 'i', 't', 'l', 'e', '"', ':', '"'] : List Char) =
      [',', '"', 't', 'i', 't', 'l', 'e', '"', ':'] ++ ['"'] := by decide
  rw [m2l, stripLit_prepend, stripLit_quote]
  dsimp only
  rw [decStr_escStr n.title.data _ _ (by
    rw [List.length_append, List.length_cons]
    have := len_le_escStr n.title.data
    omega)]
  dsimp only
  have m3l : ([',', '"', 'c', 'o', 'n', 't', 'e', 'n', 't', '"', ':', '"'] : List Char) =
      [',', '"', 'c', 'o', 'n', 't', 'e', 'n', 't', '"', ':'] ++ ['"'] := by decide
  rw [m3l, stripLit_prepend, stripLit_quote]
  dsimp only
  rw [decStr_escStr n.content.data _ _ (by
    rw [List.length_append, List.length_cons]
    have := len_le_escStr n.content.data
    omega)]
  dsimp only
  rw [stripLit_self]
  dsimp only
  cases henc : encNat n.lastModified with
  | nil => exact absurd henc (encNatAux_ne_nil _ _ _)
  | cons d ds =>
    have hdigall : ∀ c ∈ d :: ds, c.isDigit := by
      rw [← henc]
      exact encNat_digits n.lastModified
    have hd : d.isDigit = true := hdigall d (List.mem_cons_self d ds)
    rw [show ((['\x7d'] : List Char) ++ tail) = '\x7d' :: tail from rfl]
    change (if d.isDigit = true then _ else _) = _
    rw [if_pos hd]
    have hdn : decNatAux ((d :: ds) ++ '\x7d' :: tail) 0 =
        (List.foldl (fun a c => a * 10 + (c.toNat - 48)) 0 (d :: ds), '\x7d' :: tail) :=
      decNatAux_digits (d :: ds) tail 0 hdigall
    rw [hdn, ← henc, foldl_encNat]
    dsimp only
    rw [stripLit_brace]

lemma encNote_length_pos (n : Note) : 1 ≤ (encNote n).length := by
  simp only [encNote, List.length_append]
  have hb : (['\x7b', '"', 'i', 'd', '"', ':'] : List Char).length = 6 := by decide
  omega

lemma encNoteSeq_length : ∀ l : List Note, l.length ≤ (encNoteSeq l).length := by
  intro l
  induction l with
  | nil => simp [encNoteSeq]
  | cons n l2 ih =>
    cases l2 with
    | nil =>
      show 1 ≤ (encNote n).length
      exact encNote_length_pos n
    | cons m l3 =>
      show (n :: m :: l3).length ≤ (encNote n ++ ',' :: encNoteSeq (m :: l3)).length
      rw [List.length_append, List.length_cons]
      have h1 := encNote_length_pos n
      have h2 : (m :: l3).length ≤ (encNoteSeq (m :: l3)).length := ih
      simp only [List.length_cons] at h2 ⊢
      omega

lemma encNoteSeq_ne_nil (n : Note) (l : List Note) : encNoteSeq (n :: l) ≠ [] := by
  have h := encNoteSeq_length (n :: l)
  intro hc
  rw [hc] at h
  simp at h

lemma decNotesAux_enc : ∀ (l : List Note) (n : Note) (fuel : Nat), l.length < fuel →
    decNotesAux (encNoteSeq (n :: l) ++ [']']) fuel = some (n :: l, [']']) := by
  intro l
  induction l with
  | nil =>
    intro n fuel hf
    cases fuel with
    | zero => omega
    | succ f =>
      show decNotesAux (encNote n ++ [']']) (f + 1) = some ([n], [']'])
      simp only [decNotesAux]
      rw [decNote_encNote n [']']]
      rfl
  | cons m l2 ih =>
    intro n fuel hf
    cases fuel with
    | zero => omega
    | succ f =>
      have hsp : encNoteSeq (n :: m :: l2) ++ [']'] =
          encNote n ++ (',' :: (encNoteSeq (m :: l2) ++ [']'])) := by
        show (encNote n ++ ',' :: encNoteSeq (m :: l2)) ++ [']'] = _
        rw [List.append_assoc]
        rfl
      rw [hsp]
      simp only [decNotesAux]
      rw [decNote_encNote n (',' :: (encNoteSeq (m :: l2) ++ [']']))]
      have hrec := ih m f (by simpa using Nat.lt_of_succ_lt_succ hf)
      change (match decNotesAux (encNoteSeq (m :: l2) ++ [']']) f with
        | some (ns, s3) => some (n :: ns, s3)
        | none => none) = some (n :: m :: l2, [']'])
      rw [hrec]

/-- C8: serializing the note list to the persistent slot and deserializing
that same persisted value with the load path yields the original note list,
note by note (id, title, content, lastModified), in the same order. -/
theorem c8_round_trip (s : NotepadState) (l : List Note) :
    (saveNotes s l).storedNotes = some l ∧
    decodeNotes (encodeNotes l) = some l := by
  refine ⟨rfl, ?_⟩
  cases l with
  | nil => decide
  | cons n l2 =>
    have hdata : (encodeNotes (n :: l2)).data =
        '[' :: (encNoteSeq (n :: l2) ++ [']']) := rfl
    unfold decodeNotes
    rw [hdata]
    dsimp only
    rw [if_pos rfl]
    have hne : ¬(encNoteSeq (n :: l2) ++ [']'] = [']']) := by
      intro hc
      have := congrArg List.length hc
      rw [List.length_append] at this
      simp only [List.length_cons, List.length_nil] at this
      have h1 := encNoteSeq_length (n :: l2)
      simp only [List.length_cons] at h1
      omega
    rw [if_neg hne]
    have hlen : l2.length < (encNoteSeq (n :: l2) ++ [']']).length + 1 := by
      rw [List.length_append]
      have h1 := encNoteSeq_length (n :: l2)
      simp only [List.length_cons] at h1 ⊢
      omega
    rw [decNotesAux_enc l2 n _ hlen]
    dsimp only
    rw [if_pos rfl]
